import Mathlib

/-!
Verification of the mempool-symbolic-fuzz core against its specification.

The Python sources under `eth_txpool_fuzzer_core/` are shallowly embedded:

* `state.py` — `get_symbolic_pool_state`, `get_txpool_energy`; raw pool
  snapshots (`txpool_content`) are modelled as association lists of senders
  to (nonce, record) lists, with hex-string fields already decoded to `Nat`
  (well-formed snapshots; `dict.get(k, default)` becomes a total field with
  the same default).
* `tx.py` — `Tx` / `Input`.
* `fuzz_engine.py` — `Seed`, `SeedDatabase.add_seed`, `SeedDatabase.get_next_seed`,
  the warm-path resend loop of `_execute_input_sequence`, and
  `_parse_input_to_symbol`.
* `mutation.py` and `mutation_strategies/blob_mutation.py` — the
  `base_input_tx_in_pool_indices` computations and the blob strategy's
  candidate construction (client fee snapshots and `random.randint` draws
  are inputs of the embedding).

Python's `list.sort` (a stable sort driven by `__lt__`) is modelled by
`List.insertionSort` with the corresponding total preorder: a stable sort's
output is uniquely determined by the order, so this is the same function.
Python `dict`s are association lists with distinct keys; iteration order is
insertion order.
-/

namespace MempoolFuzz

/-! ## Configuration constants (config.py) -/

def DEFAULT_GAS_LIMIT : Nat := 21000

def DEFAULT_TXPOOL_SIZE : Nat := 4

def STATE_NORMAL_TX_PRICE_INDICATOR : Nat := 3

def STATE_PARENT_REPLACEMENT_PRICE_THRESHOLD : Nat := 12000

def STATE_CHILD_VALUE_THRESHOLD : Nat := 10000

/-! ## Raw pool snapshots (the txpool_content dictionaries of state.py) -/

/-- One transaction record of a raw `txpool_content` snapshot.  Hex-encoded
fields are decoded; a field absent from the dictionary is its `0` /empty
default, exactly as in the Python `tx_details.get(...)` reads.  An absent or
empty `blobVersionedHashes` is the empty list (the code treats `None`,
non-lists and `[]` identically). -/
structure TxRecord where
  value : Nat := 0
  gasPrice : Nat := 0
  maxFeePerGas : Nat := 0
  maxFeePerBlobGas : Nat := 0
  txType : Nat := 0
  blobVersionedHashes : List Nat := []
deriving DecidableEq

/-- A sender's map of nonce to record (`txs_by_nonce_str`), in dict insertion
order. -/
abbrev SenderTxs := List (Nat × TxRecord)

/-- A raw pool snapshot: the `pending` and `queued` mappings. -/
structure Pool where
  pending : List (String × SenderTxs) := []
  queued : List (String × SenderTxs) := []
deriving DecidableEq

/-- Python's `sorted(txs_by_nonce_str.keys(), key=int)` followed by record
lookup: the records of one sender in ascending nonce order. -/
def sortByNonce (txs : SenderTxs) : SenderTxs :=
  List.insertionSort (fun a b => a.1 ≤ b.1) txs

/-- Python's `dict.get(sender, {})` on the `pending` mapping. -/
def lookupTxs (pending : List (String × SenderTxs)) (s : String) : SenderTxs :=
  match pending.find? (fun e => e.1 == s) with
  | some e => e.2
  | none => []

/-- The head price used when classifying a record: `gasPrice`, replaced by
`maxFeePerGas` for EIP-1559/4844 types (state.py lines 84-87). -/
def txHeadPrice (r : TxRecord) : Nat :=
  if r.txType = 2 ∨ r.txType = 3 then r.maxFeePerGas else r.gasPrice

/-! ## get_symbolic_pool_state (state.py lines 26-178) -/

/-- Summary of a sender whose first pending record is not normal priced
(state.py class `SenderTxSummary`). -/
structure SenderTxSummary where
  sender_address : String
  first_tx_price : Nat
  tx_count : Nat
deriving DecidableEq

/-- Count of queued records with the future sentinel nonce `10000` and a
non-blob type (state.py lines 51-59). -/
def futureTxCount : List (String × SenderTxs) → Nat
  | [] => 0
  | e :: rest =>
    (e.2.countP fun t => t.1 == 10000 && t.2.txType != 3) + futureTxCount rest

/-- Accumulator of the first pending-sender loop of
`get_symbolic_pool_state` (state.py lines 61-108). -/
structure PendScan where
  totalPending : Nat := 0
  normalCount : Nat := 0
  summaries : List SenderTxSummary := []
  blobCount : Nat := 0
  invalidBlobCount : Nat := 0
deriving DecidableEq

/-- The first pending-sender loop of `get_symbolic_pool_state`: classify each
sender by its lowest-nonce record, counting normal and (in)valid blob records
and collecting the non-normal sender summaries in iteration order. -/
def scanPending (normal : Nat) : List (String × SenderTxs) → PendScan
  | [] => {}
  | (s, txs) :: rest =>
    let acc := scanPending normal rest
    match sortByNonce txs with
    | [] => acc
    | (_, r₀) :: _ =>
      if r₀.txType = 3 then
        if r₀.blobVersionedHashes ≠ [] then
          { acc with totalPending := txs.length + acc.totalPending,
                     blobCount := txs.length + acc.blobCount }
        else
          { acc with totalPending := txs.length + acc.totalPending,
                     invalidBlobCount := txs.length + acc.invalidBlobCount }
      else if txHeadPrice r₀ = normal then
        { acc with totalPending := txs.length + acc.totalPending,
                   normalCount := txs.length + acc.normalCount }
      else
        { acc with totalPending := txs.length + acc.totalPending,
                   summaries := ⟨s, txHeadPrice r₀, txs.length⟩ :: acc.summaries }

/-- Python's `non_normal_sender_summaries.sort()`, driven by
`SenderTxSummary.__lt__` (price comparison): a stable sort by head price. -/
def sortSummaries (l : List SenderTxSummary) : List SenderTxSummary :=
  List.insertionSort (fun a b => a.first_tx_price ≤ b.first_tx_price) l

/-- The per-record symbol loop for one non-normal sender (state.py lines
127-163).  `i` is the `enumerate` index, `high` the
`is_high_price_parent_chain` flag. -/
def chainSymbolsAux (repl childVal : Nat) : List (Nat × TxRecord) → Nat → Bool → List Char
  | [], _, _ => []
  | (_, r) :: rest, i, high =>
    if r.txType = 3 then
      (if r.blobVersionedHashes ≠ [] then 'B' else 'I') ::
        chainSymbolsAux repl childVal rest (i + 1) high
    else if i = 0 then
      if repl ≤ txHeadPrice r then 'R' :: chainSymbolsAux repl childVal rest (i + 1) true
      else 'P' :: chainSymbolsAux repl childVal rest (i + 1) false
    else if high || childVal < r.value then 'O' :: chainSymbolsAux repl childVal rest (i + 1) high
    else 'C' :: chainSymbolsAux repl childVal rest (i + 1) high

/-- Symbols of one non-normal sender, over its records in nonce order. -/
def chainSymbols (repl childVal : Nat) (txs : SenderTxs) : List Char :=
  chainSymbolsAux repl childVal (sortByNonce txs) 0 false

/-- `get_symbolic_pool_state` (state.py lines 26-178), returning the symbol
string as a list of characters.  Note line 168 of the source: the blob and
invalid-blob record counts are added to `total_txs_in_pool` on top of
`total_pending_tx_count`, which already includes them. -/
def get_symbolic_pool_state (p : Pool) (txpool_size_config : Nat)
    (normal_tx_price_indicator : Nat := STATE_NORMAL_TX_PRICE_INDICATOR)
    (parent_replacement_price_threshold : Nat := STATE_PARENT_REPLACEMENT_PRICE_THRESHOLD)
    (child_value_threshold : Nat := STATE_CHILD_VALUE_THRESHOLD) : List Char :=
  let F := futureTxCount p.queued
  let scan := scanPending normal_tx_price_indicator p.pending
  let parts := List.replicate scan.normalCount 'N' ++
    (sortSummaries scan.summaries).flatMap (fun s =>
      chainSymbols parent_replacement_price_threshold child_value_threshold
        (lookupTxs p.pending s.sender_address))
  let total_txs_in_pool := F + scan.totalPending + scan.blobCount + scan.invalidBlobCount
  let empty_slot_count := txpool_size_config - total_txs_in_pool
  List.replicate empty_slot_count 'E' ++ List.replicate F 'F' ++
    List.replicate scan.blobCount 'B' ++ List.replicate scan.invalidBlobCount 'I' ++ parts

/-- Total records of a snapshot in the sense of the specification: all
pending records plus the queued future records. -/
def total_records (p : Pool) : Nat :=
  (p.pending.map (fun e => e.2.length)).sum + futureTxCount p.queued

/-- Number of pending records belonging to senders whose lowest-nonce record
is an EIP-4844 (type 3) transaction.  These records are the ones
`get_symbolic_pool_state` double-counts against the pool capacity. -/
def blobHeadRecordCount (p : Pool) : Nat :=
  (p.pending.map (fun e =>
    match sortByNonce e.2 with
    | [] => 0
    | (_, r₀) :: _ => if r₀.txType = 3 then e.2.length else 0)).sum

/-! ## get_txpool_energy (state.py lines 181-255) -/

/-- Accumulator of the `get_txpool_energy` sender loop. -/
structure EnergyScan where
  energy : Nat := 0
  nonNormalParentCount : Nat := 0
  blobCount : Nat := 0
  invalidBlobCount : Nat := 0
deriving DecidableEq

/-- Componentwise sum of two energy accumulators. -/
def addScan (a b : EnergyScan) : EnergyScan :=
  { energy := a.energy + b.energy,
    nonNormalParentCount := a.nonNormalParentCount + b.nonNormalParentCount,
    blobCount := a.blobCount + b.blobCount,
    invalidBlobCount := a.invalidBlobCount + b.invalidBlobCount }

/-- Contribution of one pending sender to the `get_txpool_energy` loop
(state.py lines 197-244). -/
def senderEnergyScan (normal childVal : Nat) (txs : SenderTxs) : EnergyScan :=
  match sortByNonce txs with
  | [] => {}
  | (_, r₀) :: _ =>
    if r₀.txType = 3 then
      if r₀.blobVersionedHashes ≠ [] then
        { energy := if r₀.maxFeePerBlobGas < 10 ∨ 1000 < r₀.maxFeePerBlobGas then 5 else 0,
          blobCount := txs.length }
      else
        { energy := 10, invalidBlobCount := txs.length }
    else if txHeadPrice r₀ = normal then
      { energy := 3 * txs.length }
    else
      { energy := (sortByNonce txs).countP (fun t => t.2.value ≤ childVal),
        nonNormalParentCount := 1 }

/-- The `get_txpool_energy` sender loop over the pending mapping. -/
def scanEnergy (normal childVal : Nat) : List (String × SenderTxs) → EnergyScan
  | [] => {}
  | e :: rest => addScan (senderEnergyScan normal childVal e.2) (scanEnergy normal childVal rest)

/-- The attack-parent bonus `for i in range(n): energy += 4 + i`
(state.py lines 248-249). -/
def bonusEnergy (n : Nat) : Nat :=
  (List.range n).foldl (fun a i => a + (4 + i)) 0

/-- `get_txpool_energy` (state.py lines 181-255). -/
def get_txpool_energy (p : Pool)
    (normal_tx_price_indicator : Nat := STATE_NORMAL_TX_PRICE_INDICATOR)
    (child_value_threshold : Nat := STATE_CHILD_VALUE_THRESHOLD) : Nat :=
  let s := scanEnergy normal_tx_price_indicator child_value_threshold p.pending
  s.energy + bonusEnergy s.nonNormalParentCount + s.blobCount * 2 + s.invalidBlobCount * 15

/-! ## Structural lemmas about the pool abstraction -/

theorem length_sortByNonce (txs : SenderTxs) : (sortByNonce txs).length = txs.length :=
  (List.perm_insertionSort _ txs).length_eq

theorem eq_nil_of_sortByNonce_eq_nil {txs : SenderTxs} (h : sortByNonce txs = []) : txs = [] := by
  have := length_sortByNonce txs
  rw [h] at this
  exact List.length_eq_zero.mp this.symm

theorem chainSymbolsAux_length (repl cv : Nat) :
    ∀ (txs : List (Nat × TxRecord)) (i : Nat) (high : Bool),
      (chainSymbolsAux repl cv txs i high).length = txs.length := by
  intro txs
  induction txs with
  | nil => intro i high; rfl
  | cons t rest ih =>
    intro i high
    obtain ⟨n, r⟩ := t
    simp only [chainSymbolsAux]
    split_ifs <;> simp [ih]

theorem chainSymbols_length (repl cv : Nat) (txs : SenderTxs) :
    (chainSymbols repl cv txs).length = txs.length := by
  rw [chainSymbols, chainSymbolsAux_length, length_sortByNonce]

theorem chainSymbolsAux_mem (repl cv : Nat) :
    ∀ (txs : List (Nat × TxRecord)) (i : Nat) (high : Bool) (c : Char),
      c ∈ chainSymbolsAux repl cv txs i high → c ∈ (['B', 'I', 'R', 'P', 'O', 'C'] : List Char) := by
  intro txs
  induction txs with
  | nil => intro i high c hc; simp [chainSymbolsAux] at hc
  | cons t rest ih =>
    intro i high c hc
    obtain ⟨n, r⟩ := t
    simp only [chainSymbolsAux] at hc
    split_ifs at hc <;> rcases List.mem_cons.mp hc with h | h <;>
      first
        | (subst h; simp)
        | exact ih _ _ _ h

theorem scanPending_totalPending (normal : Nat) :
    ∀ l : List (String × SenderTxs),
      (scanPending normal l).totalPending = (l.map (fun e => e.2.length)).sum := by
  intro l
  induction l with
  | nil => rfl
  | cons e rest ih =>
    obtain ⟨s, txs⟩ := e
    simp only [scanPending]
    cases h : sortByNonce txs with
    | nil =>
      have htxs : txs = [] := eq_nil_of_sortByNonce_eq_nil h
      subst htxs
      simpa using ih
    | cons hd tl =>
      obtain ⟨n, r⟩ := hd
      dsimp only
      split_ifs <;> simp [ih]

theorem scanPending_partition (normal : Nat) :
    ∀ l : List (String × SenderTxs),
      (scanPending normal l).normalCount + (scanPending normal l).blobCount +
          (scanPending normal l).invalidBlobCount +
          ((scanPending normal l).summaries.map (fun s => s.tx_count)).sum
        = (scanPending normal l).totalPending := by
  intro l
  induction l with
  | nil => rfl
  | cons e rest ih =>
    obtain ⟨s, txs⟩ := e
    simp only [scanPending]
    cases h : sortByNonce txs with
    | nil => simpa using ih
    | cons hd tl =>
      obtain ⟨n, r⟩ := hd
      dsimp only
      split_ifs <;> simp <;> omega

theorem scanPending_blobHead (normal : Nat) :
    ∀ l : List (String × SenderTxs),
      (scanPending normal l).blobCount + (scanPending normal l).invalidBlobCount
        = (l.map (fun e =>
            match sortByNonce e.2 with
            | [] => 0
            | (_, r₀) :: _ => if r₀.txType = 3 then e.2.length else 0)).sum := by
  intro l
  induction l with
  | nil => rfl
  | cons e rest ih =>
    obtain ⟨s, txs⟩ := e
    simp only [scanPending]
    cases h : sortByNonce txs with
    | nil => simpa [h] using ih
    | cons hd tl =>
      obtain ⟨n, r⟩ := hd
      dsimp only
      split_ifs with h3 hb hn <;> simp [h, h3] <;> omega

theorem scanPending_summaries_spec (normal : Nat) :
    ∀ l : List (String × SenderTxs), ∀ s ∈ (scanPending normal l).summaries,
      s.sender_address ∈ l.map Prod.fst ∧
      ((l.map Prod.fst).Nodup → (lookupTxs l s.sender_address).length = s.tx_count) := by
  intro l
  induction l with
  | nil => intro s hs; simp [scanPending] at hs
  | cons e rest ih =>
    obtain ⟨a, txs⟩ := e
    intro s hs
    simp only [scanPending] at hs
    have fromRest :
        s ∈ (scanPending normal rest).summaries →
        s.sender_address ∈ ((a, txs) :: rest).map Prod.fst ∧
        ((((a, txs) :: rest).map Prod.fst).Nodup →
          (lookupTxs ((a, txs) :: rest) s.sender_address).length = s.tx_count) := by
      intro hmem
      obtain ⟨hk, hlook⟩ := ih s hmem
      refine ⟨by simp [hk], ?_⟩
      intro hnd
      simp only [List.map, List.nodup_cons] at hnd
      have hne : a ≠ s.sender_address := by
        intro hEq
        exact hnd.1 (hEq ▸ hk)
      have hbeq : (a == s.sender_address) = false := by
        simpa using hne
      simpa [lookupTxs, List.find?, hbeq] using hlook hnd.2
    revert hs
    cases h : sortByNonce txs with
    | nil => exact fromRest
    | cons hd tl =>
      obtain ⟨n, r⟩ := hd
      intro hs
      dsimp only at hs
      split_ifs at hs with h3 hb hn
      · exact fromRest hs
      · exact fromRest hs
      · exact fromRest hs
      · rcases List.mem_cons.mp hs with hEq | hmem
        · subst hEq
          refine ⟨by simp, ?_⟩
          intro _
          simp [lookupTxs, List.find?]
        · exact fromRest hmem

theorem length_flatMap_summaries (p : Pool) (normal repl childVal : Nat)
    (hnd : (p.pending.map Prod.fst).Nodup) :
    ((sortSummaries (scanPending normal p.pending).summaries).flatMap (fun s =>
        chainSymbols repl childVal (lookupTxs p.pending s.sender_address))).length
      = ((scanPending normal p.pending).summaries.map (fun s => s.tx_count)).sum := by
  have hperm := List.perm_insertionSort
    (fun a b : SenderTxSummary => a.first_tx_price ≤ b.first_tx_price)
    (scanPending normal p.pending).summaries
  rw [List.length_flatMap]
  have hmap :
      List.map
        (List.length ∘ fun s => chainSymbols repl childVal (lookupTxs p.pending s.sender_address))
        (sortSummaries (scanPending normal p.pending).summaries)
      = List.map (fun s => s.tx_count) (sortSummaries (scanPending normal p.pending).summaries) := by
    apply List.map_congr_left
    intro s hs
    have hs' : s ∈ (scanPending normal p.pending).summaries :=
      hperm.mem_iff.mp (by simpa [sortSummaries] using hs)
    have hlook := (scanPending_summaries_spec normal p.pending s hs').2 hnd
    simp [Function.comp, chainSymbols_length, hlook]
  rw [hmap]
  exact ((by simpa [sortSummaries] using hperm :
    (sortSummaries (scanPending normal p.pending).summaries).Perm
      (scanPending normal p.pending).summaries).map (fun s => s.tx_count)).sum_eq

/-- C1 (amended).  For every raw pool snapshot (pending sender keys distinct,
as they are for a Python dict) and every pool-size configuration, the
symbolic state is a string over the alphabet `{E,F,N,P,R,C,O,B,I}` whose
length is `max(total_records, pool_size − blob_head_records)` — the records
of senders whose lowest-nonce record is a blob transaction are double-counted
against the capacity by state.py line 168.  When no pending sender has a blob
head this is the claimed `max(pool_size, total_records)`, and an overfull
pool produces no `E` symbol. -/
theorem get_symbolic_pool_state_shape (p : Pool) (size normal repl childVal : Nat)
    (hnd : (p.pending.map Prod.fst).Nodup) :
    (∀ c ∈ get_symbolic_pool_state p size normal repl childVal,
        c ∈ (['E', 'F', 'N', 'P', 'R', 'C', 'O', 'B', 'I'] : List Char)) ∧
    (get_symbolic_pool_state p size normal repl childVal).length
      = max (total_records p) (size - blobHeadRecordCount p) ∧
    (blobHeadRecordCount p = 0 →
      (get_symbolic_pool_state p size normal repl childVal).length
        = max size (total_records p)) ∧
    (size < total_records p →
      'E' ∉ get_symbolic_pool_state p size normal repl childVal) := by
  have h1 := scanPending_totalPending normal p.pending
  have h2 := scanPending_partition normal p.pending
  have h3 := scanPending_blobHead normal p.pending
  have hbh : blobHeadRecordCount p
      = (scanPending normal p.pending).blobCount + (scanPending normal p.pending).invalidBlobCount :=
    h3.symm
  have htr : total_records p
      = (p.pending.map (fun e => e.2.length)).sum + futureTxCount p.queued := rfl
  have hflat := length_flatMap_summaries p normal repl childVal hnd
  have hlen : (get_symbolic_pool_state p size normal repl childVal).length
      = (size - (futureTxCount p.queued + (scanPending normal p.pending).totalPending +
            (scanPending normal p.pending).blobCount +
            (scanPending normal p.pending).invalidBlobCount))
        + futureTxCount p.queued + (scanPending normal p.pending).blobCount
        + (scanPending normal p.pending).invalidBlobCount
        + (scanPending normal p.pending).normalCount
        + ((scanPending normal p.pending).summaries.map (fun s => s.tx_count)).sum := by
    simp only [get_symbolic_pool_state]
    simp [hflat]
    omega
  have hmem : ∀ c ∈ get_symbolic_pool_state p size normal repl childVal,
      c ∈ (['E', 'F', 'N', 'P', 'R', 'C', 'O', 'B', 'I'] : List Char) := by
    intro c hc
    simp only [get_symbolic_pool_state, List.mem_append] at hc
    rcases hc with ((((hc | hc) | hc) | hc) | (hc | hc))
    · rw [List.eq_of_mem_replicate hc]; simp
    · rw [List.eq_of_mem_replicate hc]; simp
    · rw [List.eq_of_mem_replicate hc]; simp
    · rw [List.eq_of_mem_replicate hc]; simp
    · rw [List.eq_of_mem_replicate hc]; simp
    · obtain ⟨s, _, hcs⟩ := List.mem_flatMap.mp hc
      have := chainSymbolsAux_mem repl childVal _ 0 false c hcs
      simp only [List.mem_cons, List.not_mem_nil, or_false] at this ⊢
      tauto
  refine ⟨hmem, ?_, ?_, ?_⟩
  · rw [hlen, htr, hbh]
    omega
  · intro h0
    rw [hlen, htr]
    rw [hbh] at h0
    omega
  · intro hlt hmem'
    rw [htr] at hlt
    simp only [get_symbolic_pool_state, List.mem_append] at hmem'
    rcases hmem' with ((((hc | hc) | hc) | hc) | (hc | hc))
    · obtain ⟨hne, _⟩ := List.mem_replicate.mp hc
      omega
    · exact absurd (List.eq_of_mem_replicate hc) (by decide)
    · exact absurd (List.eq_of_mem_replicate hc) (by decide)
    · exact absurd (List.eq_of_mem_replicate hc) (by decide)
    · exact absurd (List.eq_of_mem_replicate hc) (by decide)
    · obtain ⟨s, _, hcs⟩ := List.mem_flatMap.mp hc
      have := chainSymbolsAux_mem repl childVal _ 0 false 'E' hcs
      simp at this

/-- A snapshot holding a single valid blob record under its only pending
sender. -/
def blobPoolC1 : Pool :=
  { pending := [("a", [(0, { txType := 3, maxFeePerGas := 7, blobVersionedHashes := [1] })])],
    queued := [] }

/-- C1 counterexample: for `blobPoolC1` at pool size 2 (default thresholds),
`total_records = 1 ≤ 2` yet the symbolic string has length 1, not
`max(2, 1) = 2` — the blob record is double-counted against the capacity. -/
theorem get_symbolic_pool_state_shape_cex :
    total_records blobPoolC1 = 1 ∧
    total_records blobPoolC1 ≤ 2 ∧
    get_symbolic_pool_state blobPoolC1 2 = ['B'] ∧
    (get_symbolic_pool_state blobPoolC1 2).length ≠ 2 := by decide

/-- A blob-free pool used to instantiate `get_symbolic_pool_state_shape`. -/
def witnessPoolC1 : Pool :=
  { pending := [("a", [(0, { gasPrice := 3, value := 1 })]),
                ("b", [(0, { gasPrice := 12500, value := 0 }), (1, { gasPrice := 5, value := 9 })])],
    queued := [("f", [(10000, { gasPrice := 4, value := 2 })])] }

/-- Witness for C1 at a concrete snapshot and pool size 6. -/
theorem get_symbolic_pool_state_shape_witness :
    (get_symbolic_pool_state witnessPoolC1 6 3 12000 10000).length
      = max (total_records witnessPoolC1) (6 - blobHeadRecordCount witnessPoolC1) ∧
    (get_symbolic_pool_state witnessPoolC1 6 3 12000 10000).length
      = max 6 (total_records witnessPoolC1) :=
  ⟨(get_symbolic_pool_state_shape witnessPoolC1 6 3 12000 10000 (by decide)).2.1,
   (get_symbolic_pool_state_shape witnessPoolC1 6 3 12000 10000 (by decide)).2.2.1 (by decide)⟩


/-! ## Energy lemmas (claims about get_txpool_energy) -/

theorem addScan_assoc (a b c : EnergyScan) :
    addScan (addScan a b) c = addScan a (addScan b c) := by
  simp [addScan, Nat.add_assoc]

theorem scanEnergy_append (normal childVal : Nat) :
    ∀ l₁ l₂ : List (String × SenderTxs),
      scanEnergy normal childVal (l₁ ++ l₂)
        = addScan (scanEnergy normal childVal l₁) (scanEnergy normal childVal l₂) := by
  intro l₁ l₂
  induction l₁ with
  | nil => simp [scanEnergy, addScan]
  | cons e rest ih => simp [scanEnergy, ih, addScan_assoc]

/-- C4 (amended).  Adding a pending sender whose lowest-nonce record is a
type-3 transaction with missing or empty `blobVersionedHashes` raises the
energy by `10 + 15 · count`: state.py line 221 adds a flat `energy += 10`
for the sender on top of the per-record `invalid_blob_tx_count * 15` of
line 253.  Nothing else in the score changes. -/
theorem get_txpool_energy_invalid_blob_head
    (l₁ l₂ q : List (String × SenderTxs)) (s : String) (txs : SenderTxs)
    (normal childVal : Nat) (n₀ : Nat) (r₀ : TxRecord) (tl : SenderTxs)
    (hsort : sortByNonce txs = (n₀, r₀) :: tl)
    (ht : r₀.txType = 3) (hb : r₀.blobVersionedHashes = []) :
    get_txpool_energy ⟨l₁ ++ (s, txs) :: l₂, q⟩ normal childVal
      = get_txpool_energy ⟨l₁ ++ l₂, q⟩ normal childVal + 10 + 15 * txs.length := by
  have hc : senderEnergyScan normal childVal txs
      = { energy := 10, invalidBlobCount := txs.length } := by
    simp [senderEnergyScan, hsort, ht, hb]
  simp only [get_txpool_energy, scanEnergy_append, scanEnergy, hc, addScan]
  simp
  omega

/-- The first record of the C4 pools: a blob transaction without versioned
hashes. -/
def recC4 : TxRecord := { txType := 3, maxFeePerGas := 7 }

/-- C4 counterexample: a pool holding one malformed-blob sender with a single
record has energy `25 = 10 + 15`, not the claimed `15 · 1`. -/
theorem get_txpool_energy_invalid_blob_head_cex :
    get_txpool_energy { pending := [("a", [(0, recC4)])], queued := [] } = 25 ∧
    get_txpool_energy { pending := [], queued := [] } = 0 ∧
    (25 : Nat) ≠ 0 + 15 * 1 := by decide

/-- Witness for C4 at a concrete one-sender pool. -/
theorem get_txpool_energy_invalid_blob_head_witness :
    get_txpool_energy ⟨[("a", [(0, recC4)])], []⟩ 3 10000
      = get_txpool_energy ⟨[], []⟩ 3 10000 + 10 + 15 * 1 :=
  get_txpool_energy_invalid_blob_head [] [] [] "a" [(0, recC4)] 3 10000 0 recC4 [] rfl rfl rfl

/-- The pool of claim C7: three pending senders with one normal-priced record
each and one sender with a single replacement-priced (12500) zero-value
record; fingerprint `NNNR` at pool size 4. -/
def poolC7 : Pool :=
  { pending := [("n1", [(0, { gasPrice := 3, value := 1 })]),
                ("n2", [(0, { gasPrice := 3, value := 1 })]),
                ("n3", [(0, { gasPrice := 3, value := 1 })]),
                ("r1", [(0, { gasPrice := 12500, value := 0 })])],
    queued := [] }

/-- C7 counterexample: the energy of the `NNNR` pool is not 17. -/
theorem get_txpool_energy_nnnr_cex : get_txpool_energy poolC7 ≠ 17 := by decide

/-- C7 (amended).  The `NNNR` pool (three normal records, one replacement
chain) has energy `3·3 + 1 + 4 = 14`: the spec's total of 17 miscounts the
three remaining normal records as 12. -/
theorem get_txpool_energy_nnnr :
    get_symbolic_pool_state poolC7 4 = ['N', 'N', 'N', 'R'] ∧
    get_txpool_energy poolC7 = 14 := by decide

/-! ## Transaction intents and inputs (tx.py) -/

/-- A transaction intent (tx.py class `Tx`). -/
structure Tx where
  account_manager_index : Nat
  sender_address : String
  nonce : Nat
  price : Nat
  value : Nat
  tx_type : Nat := 0
  max_priority_fee_per_gas : Option Nat := none
  max_fee_per_blob_gas : Option Nat := none
  blob_versioned_hashes : Option (List Nat) := none
deriving DecidableEq

/-- Alias used throughout the engine (tx.py: `FuzzTx = Tx`). -/
abbrev FuzzTx := Tx

/-- A fuzzing input: a transaction sequence plus the indices of a parent
input to re-send (tx.py class `Input`). -/
structure Input where
  tx_sequence_to_execute : List Tx
  base_input_indices_to_resend : List Nat := []
deriving DecidableEq

/-- Alias used throughout the engine (tx.py: `FuzzInput = Input`). -/
abbrev FuzzInput := Input

/-! ## Seed and SeedDatabase (fuzz_engine.py lines 23-132) -/

/-- A seed of the fuzzing frontier (fuzz_engine.py class `Seed`). -/
structure Seed where
  fuzz_input : FuzzInput
  txpool_state : Option Pool := none
  symbolic_state_str : Option String := none
  energy : Nat
  generation : Nat := 0
deriving DecidableEq

/-- The total preorder induced by `Seed.__lt__` (fuzz_engine.py lines 44-51):
lexicographic on `(energy, generation)`. -/
def seedLe (a b : Seed) : Prop :=
  a.energy < b.energy ∨ (a.energy = b.energy ∧ a.generation ≤ b.generation)

instance : DecidableRel seedLe := fun a b => by
  unfold seedLe; infer_instance

instance : IsTotal Seed seedLe :=
  ⟨by intro a b; unfold seedLe; omega⟩

instance : IsTrans Seed seedLe :=
  ⟨by intro a b c; unfold seedLe; omega⟩

/-- Python's `self.seeds.sort()` under `Seed.__lt__`: a stable sort by
`(energy, generation)`. -/
def sortSeeds (l : List Seed) : List Seed :=
  List.insertionSort seedLe l

/-- The seed database (fuzz_engine.py class `SeedDatabase`): the seed list
kept sorted, and the set of covered fingerprints. -/
structure SeedDatabase where
  seeds : List Seed := []
  known_symbolic_states : List String := []
deriving DecidableEq

/-- `SeedDatabase.add_seed` (fuzz_engine.py lines 67-86). -/
def add_seed (db : SeedDatabase) (seed : Seed) : SeedDatabase :=
  match seed.symbolic_state_str with
  | none => { db with seeds := sortSeeds (db.seeds ++ [seed]) }
  | some fp =>
    if fp ∈ db.known_symbolic_states then db
    else { seeds := sortSeeds (db.seeds ++ [seed]),
           known_symbolic_states := fp :: db.known_symbolic_states }

/-- `SeedDatabase.get_next_seed` (fuzz_engine.py lines 88-105): pop the head
of the sorted list, bump its generation, re-insert and re-sort. -/
def get_next_seed (db : SeedDatabase) : Option Seed × SeedDatabase :=
  match db.seeds with
  | [] => (none, db)
  | s :: rest =>
    let s' := { s with generation := s.generation + 1 }
    (some s', { db with seeds := sortSeeds (rest ++ [s']) })

/-- C2 (confirmed).  On a database whose seed list is sorted (the invariant
`add_seed` and `get_next_seed` maintain), `get_next_seed` returns `None` iff
the database is empty; on a non-empty database it selects the seed minimal in
the lexicographic `(energy, generation)` order, increments its generation by
one, and keeps the seed in the database, leaving the covered set unchanged. -/
theorem get_next_seed_spec (db : SeedDatabase) (hs : List.Sorted seedLe db.seeds) :
    ((get_next_seed db).1 = none ↔ db.seeds = []) ∧
    (∀ s rest, db.seeds = s :: rest →
      (get_next_seed db).1 = some { s with generation := s.generation + 1 } ∧
      (∀ t ∈ db.seeds, seedLe s t) ∧
      ((get_next_seed db).2.seeds).Perm ({ s with generation := s.generation + 1 } :: rest) ∧
      { s with generation := s.generation + 1 } ∈ (get_next_seed db).2.seeds ∧
      (get_next_seed db).2.known_symbolic_states = db.known_symbolic_states) := by
  constructor
  · cases h : db.seeds with
    | nil => simp [get_next_seed, h]
    | cons s rest => simp [get_next_seed, h]
  · intro s rest hdb
    have hperm : (sortSeeds (rest ++ [{ s with generation := s.generation + 1 }])).Perm
        ({ s with generation := s.generation + 1 } :: rest) :=
      (List.perm_insertionSort _ _).trans (List.perm_append_singleton _ _)
    rw [hdb] at hs
    refine ⟨by simp [get_next_seed, hdb], ?_, ?_, ?_, ?_⟩
    · intro t ht
      rw [hdb] at ht
      rcases List.mem_cons.mp ht with hEq | hmem
      · exact hEq ▸ Or.inr ⟨rfl, Nat.le_refl _⟩
      · exact List.rel_of_sorted_cons hs t hmem
    · simpa [get_next_seed, hdb] using hperm
    · have : { s with generation := s.generation + 1 } ∈
          ({ s with generation := s.generation + 1 } :: rest) := List.mem_cons_self _ _
      simpa [get_next_seed, hdb] using hperm.mem_iff.mpr this
    · simp [get_next_seed, hdb]

/-- A two-seed database, sorted by `(energy, generation)`. -/
def seedLowC2 : Seed :=
  { fuzz_input := ⟨[], []⟩, symbolic_state_str := some "N", energy := 5, generation := 0 }

/-- The higher-energy seed of the C2 witness database. -/
def seedHighC2 : Seed :=
  { fuzz_input := ⟨[], []⟩, symbolic_state_str := some "R", energy := 7, generation := 2 }

/-- The C2 witness database. -/
def dbC2 : SeedDatabase :=
  { seeds := [seedLowC2, seedHighC2], known_symbolic_states := ["N", "R"] }

/-- Witness for C2: popping the concrete database returns the minimal seed
with its generation bumped and keeps both seeds. -/
theorem get_next_seed_spec_witness :
    (get_next_seed dbC2).1 = some { seedLowC2 with generation := 1 } ∧
    ((get_next_seed dbC2).2.seeds).Perm [{ seedLowC2 with generation := 1 }, seedHighC2] ∧
    (get_next_seed dbC2).2.known_symbolic_states = dbC2.known_symbolic_states := by
  obtain ⟨-, h⟩ := get_next_seed_spec dbC2 (by decide)
  obtain ⟨h1, -, h3, -, h5⟩ := h seedLowC2 [seedHighC2] rfl
  exact ⟨h1, h3, h5⟩

/-- C3 (confirmed).  For a seed carrying a fingerprint: if the fingerprint is
already covered, `add_seed` changes neither the seed list nor the covered
set; otherwise it inserts the seed and marks the fingerprint covered. -/
theorem add_seed_covered_spec (db : SeedDatabase) (s : Seed) (fp : String)
    (h : s.symbolic_state_str = some fp) :
    (fp ∈ db.known_symbolic_states → add_seed db s = db) ∧
    (fp ∉ db.known_symbolic_states →
      (add_seed db s).seeds.Perm (s :: db.seeds) ∧
      s ∈ (add_seed db s).seeds ∧
      (add_seed db s).known_symbolic_states = fp :: db.known_symbolic_states) := by
  have hperm : (sortSeeds (db.seeds ++ [s])).Perm (s :: db.seeds) :=
    (List.perm_insertionSort _ _).trans (List.perm_append_singleton _ _)
  constructor
  · intro hin
    simp [add_seed, h, hin]
  · intro hout
    refine ⟨by simpa [add_seed, h, hout] using hperm, ?_, by simp [add_seed, h, hout]⟩
    have : s ∈ s :: db.seeds := List.mem_cons_self _ _
    simpa [add_seed, h, hout] using hperm.mem_iff.mpr this

/-- A seed with fingerprint `"NN"` used by the C3 witness. -/
def seedC3 : Seed :=
  { fuzz_input := ⟨[], []⟩, symbolic_state_str := some "NN", energy := 4, generation := 0 }

/-- A database that already covers `"NN"`. -/
def dbCoveredC3 : SeedDatabase :=
  { seeds := [], known_symbolic_states := ["NN"] }

/-- Witness for C3: adding onto a covering database is a no-op, adding onto
an empty one inserts and covers. -/
theorem add_seed_covered_spec_witness :
    add_seed dbCoveredC3 seedC3 = dbCoveredC3 ∧
    (add_seed ⟨[], []⟩ seedC3).known_symbolic_states = ["NN"] := by
  refine ⟨(add_seed_covered_spec dbCoveredC3 seedC3 "NN" rfl).1 (by decide), ?_⟩
  exact ((add_seed_covered_spec ⟨[], []⟩ seedC3 "NN" rfl).2 (by decide)).2.2

/-- C10 (confirmed).  A seed without a fingerprint is always inserted — even
when an identical seed is already stored — and the covered set is unchanged,
so `None`-fingerprint seeds are never deduplicated and never contribute to
coverage tracking. -/
theorem add_seed_none_fingerprint (db : SeedDatabase) (s : Seed)
    (h : s.symbolic_state_str = none) :
    (add_seed db s).seeds.Perm (s :: db.seeds) ∧
    s ∈ (add_seed db s).seeds ∧
    (add_seed db s).seeds.length = db.seeds.length + 1 ∧
    (add_seed db s).known_symbolic_states = db.known_symbolic_states := by
  have hperm : (sortSeeds (db.seeds ++ [s])).Perm (s :: db.seeds) :=
    (List.perm_insertionSort _ _).trans (List.perm_append_singleton _ _)
  refine ⟨by simpa [add_seed, h] using hperm, ?_, ?_, by simp [add_seed, h]⟩
  · have : s ∈ s :: db.seeds := List.mem_cons_self _ _
    simpa [add_seed, h] using hperm.mem_iff.mpr this
  · have := hperm.length_eq
    simpa [add_seed, h] using this

/-- A fingerprint-less seed used by the C10 witness. -/
def seedNoneC10 : Seed :=
  { fuzz_input := ⟨[], []⟩, symbolic_state_str := none, energy := 9, generation := 0 }

/-- A database already holding an identical copy of `seedNoneC10`. -/
def dbC10 : SeedDatabase :=
  { seeds := [seedNoneC10], known_symbolic_states := ["N"] }

/-- Witness for C10: adding a fingerprint-less seed to a database already
holding an identical copy still inserts it and leaves the covered set
untouched. -/
theorem add_seed_none_fingerprint_witness :
    (add_seed dbC10 seedNoneC10).seeds.length = 2 ∧
    (add_seed dbC10 seedNoneC10).known_symbolic_states = ["N"] := by
  obtain ⟨-, -, h3, h4⟩ := add_seed_none_fingerprint dbC10 seedNoneC10 rfl
  exact ⟨h3, h4⟩


/-! ## Input symbolization (fuzz_engine.py lines 549-571) -/

/-- Lookup in the `sender_nonce_tracker` dictionary; assignments shadow, so
the most recent entry wins. -/
def lookupTracker (tr : List (String × Nat)) (s : String) : Option Nat :=
  (tr.find? (fun e => e.1 == s)).map (fun e => e.2)

/-- The symbolization loop of `_parse_input_to_symbol`: `P`/`R` for nonce-0
intents, `C`/`O` for an intent continuing a tracked sender with a contiguous
nonce, nothing otherwise. -/
def parseInputAux (tr : List (String × Nat)) : List Tx → List Char
  | [] => []
  | tx :: rest =>
    if tx.nonce = 0 then
      (if tx.price < STATE_PARENT_REPLACEMENT_PRICE_THRESHOLD then 'P' else 'R') ::
        parseInputAux ((tx.sender_address, 0) :: tr) rest
    else
      match lookupTracker tr tx.sender_address with
      | some m =>
        if tx.nonce = m + 1 then
          (if tx.value ≤ STATE_CHILD_VALUE_THRESHOLD then 'C' else 'O') ::
            parseInputAux ((tx.sender_address, tx.nonce) :: tr) rest
        else parseInputAux tr rest
      | none => parseInputAux tr rest

/-- `FuzzEngine._parse_input_to_symbol` (fuzz_engine.py lines 549-571). -/
def _parse_input_to_symbol (inp : FuzzInput) : List Char :=
  parseInputAux [] inp.tx_sequence_to_execute

/-- One emitted symbol together with the sender and nonce of the intent that
produced it: the instrumented form of the symbolization loop. -/
structure SymEntry where
  symbol : Char
  sender : String
  nonce : Nat
deriving DecidableEq

/-- The symbolization loop, instrumented with the producing intents. -/
def parseInputAnnAux (tr : List (String × Nat)) : List Tx → List SymEntry
  | [] => []
  | tx :: rest =>
    if tx.nonce = 0 then
      ⟨if tx.price < STATE_PARENT_REPLACEMENT_PRICE_THRESHOLD then 'P' else 'R',
        tx.sender_address, tx.nonce⟩ ::
        parseInputAnnAux ((tx.sender_address, 0) :: tr) rest
    else
      match lookupTracker tr tx.sender_address with
      | some m =>
        if tx.nonce = m + 1 then
          ⟨if tx.value ≤ STATE_CHILD_VALUE_THRESHOLD then 'C' else 'O',
            tx.sender_address, tx.nonce⟩ ::
            parseInputAnnAux ((tx.sender_address, tx.nonce) :: tr) rest
        else parseInputAnnAux tr rest
      | none => parseInputAnnAux tr rest

/-- Instrumented symbolization of a whole input. -/
def parseInputAnn (inp : FuzzInput) : List SymEntry :=
  parseInputAnnAux [] inp.tx_sequence_to_execute

theorem parseInputAux_eq_map : ∀ (txs : List Tx) (tr : List (String × Nat)),
    parseInputAux tr txs = (parseInputAnnAux tr txs).map (fun e => e.symbol) := by
  intro txs
  induction txs with
  | nil => intro tr; rfl
  | cons tx rest ih =>
    intro tr
    by_cases h0 : tx.nonce = 0
    · simp [parseInputAux, parseInputAnnAux, h0, ih]
    · cases h : lookupTracker tr tx.sender_address with
      | none => simp [parseInputAux, parseInputAnnAux, h0, h, ih]
      | some m =>
        by_cases h1 : tx.nonce = m + 1 <;>
          simp [parseInputAux, parseInputAnnAux, h0, h, h1, ih]

theorem parseInputAnnAux_symbol_mem :
    ∀ (txs : List Tx) (tr : List (String × Nat)), ∀ e ∈ parseInputAnnAux tr txs,
      e.symbol = 'P' ∨ e.symbol = 'R' ∨ e.symbol = 'C' ∨ e.symbol = 'O' := by
  intro txs
  induction txs with
  | nil => intro tr e he; simp [parseInputAnnAux] at he
  | cons tx rest ih =>
    intro tr e he
    by_cases h0 : tx.nonce = 0
    · simp only [parseInputAnnAux, if_pos h0] at he
      rcases List.mem_cons.mp he with hEq | hmem
      · subst hEq; dsimp only; split_ifs <;> simp
      · exact ih _ e hmem
    · simp only [parseInputAnnAux, if_neg h0] at he
      cases h : lookupTracker tr tx.sender_address with
      | none => rw [h] at he; dsimp only at he; exact ih tr e he
      | some m =>
        rw [h] at he
        dsimp only at he
        by_cases h1 : tx.nonce = m + 1
        · rw [if_pos h1] at he
          rcases List.mem_cons.mp he with hEq | hmem
          · subst hEq; dsimp only; split_ifs <;> simp
          · exact ih _ e hmem
        · rw [if_neg h1] at he; exact ih tr e he

theorem parseInputAnnAux_justified :
    ∀ (txs : List Tx) (tr : List (String × Nat)) (prev : List SymEntry),
      (∀ s n, lookupTracker tr s = some n → ∃ b ∈ prev, b.sender = s ∧ b.nonce = n) →
      ∀ l₁ e l₂, parseInputAnnAux tr txs = l₁ ++ e :: l₂ →
        (e.symbol = 'C' ∨ e.symbol = 'O') →
        ∃ b ∈ prev ++ l₁, b.sender = e.sender ∧ b.nonce + 1 = e.nonce := by
  intro txs
  induction txs with
  | nil =>
    intro tr prev hinv l₁ e l₂ heq hCO
    rw [parseInputAnnAux] at heq
    exact absurd heq (by simp)
  | cons tx rest ih =>
    intro tr prev hinv l₁ e l₂ heq hCO
    by_cases h0 : tx.nonce = 0
    · rw [parseInputAnnAux, if_pos h0] at heq
      cases l₁ with
      | nil =>
        simp only [List.nil_append, List.cons.injEq] at heq
        obtain ⟨rfl, -⟩ := heq
        rcases hCO with h | h <;> dsimp only at h <;> split_ifs at h <;>
          exact absurd h (by decide)
      | cons b l₁' =>
        simp only [List.cons_append, List.cons.injEq] at heq
        obtain ⟨rfl, heq'⟩ := heq
        have hinv' : ∀ s n, lookupTracker ((tx.sender_address, 0) :: tr) s = some n →
            ∃ c ∈ prev ++ [(⟨if tx.price < STATE_PARENT_REPLACEMENT_PRICE_THRESHOLD
                then 'P' else 'R', tx.sender_address, tx.nonce⟩ : SymEntry)],
              c.sender = s ∧ c.nonce = n := by
          intro s n hl
          cases hbeq : tx.sender_address == s with
          | true =>
            have hn : n = 0 := by
              simp [lookupTracker, List.find?, hbeq] at hl
              omega
            refine ⟨⟨if tx.price < STATE_PARENT_REPLACEMENT_PRICE_THRESHOLD
              then 'P' else 'R', tx.sender_address, tx.nonce⟩, by simp, ?_, ?_⟩
            · exact eq_of_beq hbeq
            · rw [hn, h0]
          | false =>
            have hl' : lookupTracker tr s = some n := by
              simpa [lookupTracker, List.find?, hbeq] using hl
            obtain ⟨c, hcmem, hcs, hcn⟩ := hinv s n hl'
            exact ⟨c, List.mem_append_left _ hcmem, hcs, hcn⟩
        have := ih ((tx.sender_address, 0) :: tr)
          (prev ++ [⟨if tx.price < STATE_PARENT_REPLACEMENT_PRICE_THRESHOLD
            then 'P' else 'R', tx.sender_address, tx.nonce⟩]) hinv' l₁' e l₂ heq' hCO
        simpa [List.append_assoc] using this
    · rw [parseInputAnnAux, if_neg h0] at heq
      cases h : lookupTracker tr tx.sender_address with
      | none =>
        rw [h] at heq
        dsimp only at heq
        exact ih tr prev hinv l₁ e l₂ heq hCO
      | some m =>
        rw [h] at heq
        dsimp only at heq
        by_cases h1 : tx.nonce = m + 1
        · rw [if_pos h1] at heq
          cases l₁ with
          | nil =>
            simp only [List.nil_append, List.cons.injEq] at heq
            obtain ⟨rfl, -⟩ := heq
            obtain ⟨b, hbmem, hbs, hbn⟩ := hinv tx.sender_address m h
            refine ⟨b, by simpa using hbmem, ?_, ?_⟩
            · exact hbs
            · dsimp only
              omega
          | cons b l₁' =>
            simp only [List.cons_append, List.cons.injEq] at heq
            obtain ⟨rfl, heq'⟩ := heq
            have hinv' : ∀ s n,
                lookupTracker ((tx.sender_address, tx.nonce) :: tr) s = some n →
                ∃ c ∈ prev ++ [(⟨if tx.value ≤ STATE_CHILD_VALUE_THRESHOLD
                    then 'C' else 'O', tx.sender_address, tx.nonce⟩ : SymEntry)],
                  c.sender = s ∧ c.nonce = n := by
              intro s n hl
              cases hbeq : tx.sender_address == s with
              | true =>
                have hn : n = tx.nonce := by
                  simp [lookupTracker, List.find?, hbeq] at hl
                  omega
                refine ⟨⟨if tx.value ≤ STATE_CHILD_VALUE_THRESHOLD
                  then 'C' else 'O', tx.sender_address, tx.nonce⟩, by simp, ?_, ?_⟩
                · exact eq_of_beq hbeq
                · rw [hn]
              | false =>
                have hl' : lookupTracker tr s = some n := by
                  simpa [lookupTracker, List.find?, hbeq] using hl
                obtain ⟨c, hcmem, hcs, hcn⟩ := hinv s n hl'
                exact ⟨c, List.mem_append_left _ hcmem, hcs, hcn⟩
            have := ih ((tx.sender_address, tx.nonce) :: tr)
              (prev ++ [⟨if tx.value ≤ STATE_CHILD_VALUE_THRESHOLD
                then 'C' else 'O', tx.sender_address, tx.nonce⟩]) hinv' l₁' e l₂ heq' hCO
            simpa [List.append_assoc] using this
        · rw [if_neg h1] at heq
          exact ih tr prev hinv l₁ e l₂ heq hCO

/-- C9 (confirmed).  The engine's symbolization of an input is a string over
`{P,R,C,O}` and is prefix-closed: it equals the symbols of the instrumented
run `parseInputAnn`, in which every `C`/`O` entry is preceded by an entry of
the same sender — itself symbolized as `P`, `R`, `C` or `O` — whose nonce is
exactly one less; intents not fitting the pattern contribute no symbol. -/
theorem parse_input_symbol_prefix_closed (inp : FuzzInput) :
    (∀ c ∈ _parse_input_to_symbol inp, c = 'P' ∨ c = 'R' ∨ c = 'C' ∨ c = 'O') ∧
    _parse_input_to_symbol inp = (parseInputAnn inp).map (fun e => e.symbol) ∧
    (∀ e ∈ parseInputAnn inp,
      e.symbol = 'P' ∨ e.symbol = 'R' ∨ e.symbol = 'C' ∨ e.symbol = 'O') ∧
    (∀ l₁ e l₂, parseInputAnn inp = l₁ ++ e :: l₂ →
      (e.symbol = 'C' ∨ e.symbol = 'O') →
      ∃ b ∈ l₁, b.sender = e.sender ∧ b.nonce + 1 = e.nonce) := by
  refine ⟨?_, parseInputAux_eq_map _ [],
    fun e he => parseInputAnnAux_symbol_mem _ [] e he, ?_⟩
  · intro c hc
    rw [_parse_input_to_symbol, parseInputAux_eq_map] at hc
    obtain ⟨e, he, rfl⟩ := List.mem_map.mp hc
    exact parseInputAnnAux_symbol_mem _ [] e he
  · intro l₁ e l₂ heq hCO
    have := parseInputAnnAux_justified inp.tx_sequence_to_execute [] []
      (by intro s n hl; simp [lookupTracker] at hl) l₁ e l₂ heq hCO
    simpa using this

/-- An input whose two intents symbolize as `P` then `C`. -/
def inpC9 : FuzzInput :=
  ⟨[⟨0, "a", 0, 5, 100, 0, none, none, none⟩,
    ⟨0, "a", 1, 5, 20, 0, none, none, none⟩], []⟩

/-- Witness for C9 at a concrete two-intent input. -/
theorem parse_input_symbol_prefix_closed_witness :
    _parse_input_to_symbol inpC9 = ['P', 'C'] ∧
    ∃ b ∈ [(⟨'P', "a", 0⟩ : SymEntry)], b.sender = "a" ∧ b.nonce + 1 = 1 := by
  refine ⟨by decide, ?_⟩
  have h := (parse_input_symbol_prefix_closed inpC9).2.2.2
    [⟨'P', "a", 0⟩] ⟨'C', "a", 1⟩ [] (by decide) (Or.inl rfl)
  exact h


/-! ## Warm-path resend of parent intents (fuzz_engine.py lines 418-434) -/

/-- The placeholder intent used for out-of-range `getD` reads in the
embedding (never produced by the loop: invalid indices are filtered). -/
def dummyTx : Tx := ⟨0, "", 0, 0, 0, 0, none, none, none⟩

/-- Python's `sorted(base_input_for_recreation.base_input_indices_to_resend)`. -/
def sortIndices (l : List Nat) : List Nat :=
  List.insertionSort (fun a b : Nat => a ≤ b) l

/-- The warm-path resend loop of `_execute_input_sequence` (fuzz_engine.py
lines 420-434): walk the sorted indices, send the intent at each valid
index, skip invalid ones with a warning; the fuzzer nonce counters are never
touched (line 432).  The embedding returns the sent intents in order and
threads the counter map through the loop. -/
def warmResendLoop (base : FuzzInput) (counters : List (String × Nat)) :
    List Tx × List (String × Nat) :=
  (sortIndices base.base_input_indices_to_resend).foldl
    (fun acc idx =>
      if idx < base.tx_sequence_to_execute.length then
        (acc.1 ++ [base.tx_sequence_to_execute.getD idx dummyTx], acc.2)
      else acc)
    ([], counters)

/-- The valid resend positions, in the order the loop visits them. -/
def resendPositions (base : FuzzInput) : List Nat :=
  (sortIndices base.base_input_indices_to_resend).filter
    (fun idx => idx < base.tx_sequence_to_execute.length)

theorem warmResendLoop_foldl (base : FuzzInput) (counters : List (String × Nat)) :
    ∀ (is : List Nat) (acc : List Tx),
      is.foldl
        (fun acc idx =>
          if idx < base.tx_sequence_to_execute.length then
            (acc.1 ++ [base.tx_sequence_to_execute.getD idx dummyTx], acc.2)
          else acc)
        (acc, counters)
      = (acc ++ (is.filter (fun idx => idx < base.tx_sequence_to_execute.length)).map
          (fun idx => base.tx_sequence_to_execute.getD idx dummyTx), counters) := by
  intro is
  induction is with
  | nil => intro acc; simp
  | cons i rest ih =>
    intro acc
    rw [List.foldl_cons]
    by_cases hi : i < base.tx_sequence_to_execute.length
    · rw [if_pos hi, ih]
      simp [List.filter_cons, hi, List.append_assoc]
    · rw [if_neg hi, ih]
      simp [List.filter_cons, hi]

/-- C5 (amended).  The warm-path resend loop re-sends exactly the intents of
the parent input at the valid positions of its `resend_indices`, in
ascending position (index) order — not nonce order — and leaves every fuzzer
nonce counter unchanged. -/
theorem warm_resend_spec (base : FuzzInput) (counters : List (String × Nat)) :
    (warmResendLoop base counters).2 = counters ∧
    (warmResendLoop base counters).1
      = (resendPositions base).map (fun idx => base.tx_sequence_to_execute.getD idx dummyTx) ∧
    List.Sorted (fun a b : Nat => a ≤ b) (resendPositions base) ∧
    (∀ i, i ∈ resendPositions base ↔
      i ∈ base.base_input_indices_to_resend ∧ i < base.tx_sequence_to_execute.length) := by
  refine ⟨?_, ?_, ?_, ?_⟩
  · rw [warmResendLoop, warmResendLoop_foldl]
  · rw [warmResendLoop, warmResendLoop_foldl, resendPositions]
    simp
  · exact (List.sorted_insertionSort _ _).filter _
  · intro i
    simp [resendPositions, sortIndices, List.mem_filter]

/-- A parent input whose resend indices point at a nonce-1 intent before a
nonce-0 intent. -/
def inpC5 : FuzzInput :=
  ⟨[⟨0, "a", 1, 5, 5, 0, none, none, none⟩,
    ⟨0, "a", 0, 5, 5, 0, none, none, none⟩], [0, 1]⟩

/-- C5 counterexample: the loop re-sends the intents of `inpC5` with nonces
`[1, 0]`, which is not ascending nonce order. -/
theorem warm_resend_nonce_order_cex :
    ((warmResendLoop inpC5 []).1.map (fun t => t.nonce)) = [1, 0] ∧
    ¬ List.Sorted (fun a b : Nat => a ≤ b)
        ((warmResendLoop inpC5 []).1.map (fun t => t.nonce)) := by decide


/-! ## Resend-index computation of the mutation strategies
(mutation.py lines 137-189, blob_mutation.py lines 51-78) -/

/-- `all_tx_in_pool_details` of `DefaultTxPoolMutation.mutate` (mutation.py
lines 141-178): `(sender, nonce, value)` triples of all pending records plus
the queued records whose nonce is not the future sentinel `10000`. -/
def default_all_tx_in_pool_details (p : Pool) : List (String × Nat × Nat) :=
  p.pending.flatMap (fun e =>
    if e.2.isEmpty then []
    else (sortByNonce e.2).map (fun t => (e.1, t.1, t.2.value))) ++
  p.queued.flatMap (fun e =>
    if e.2.isEmpty then []
    else ((sortByNonce e.2).filter (fun t => t.1 != 10000)).map (fun t => (e.1, t.1, t.2.value)))

/-- `base_input_tx_in_pool_indices` of `DefaultTxPoolMutation.mutate`
(mutation.py lines 184-189); the strategy matches on `(sender, nonce,
value)` only.  A falsy `current_txpool_state` is `none`. -/
def default_base_input_tx_in_pool_indices (base : FuzzInput) (pool : Option Pool) : List Nat :=
  match pool with
  | none => []
  | some p =>
    ((base.tx_sequence_to_execute.enum).filter (fun it =>
      (default_all_tx_in_pool_details p).any (fun t =>
        t.1 == it.2.sender_address && t.2.1 == it.2.nonce && t.2.2 == it.2.value))).map
      (fun it => it.1)

/-- `all_tx_in_pool_details` of `BlobTxMutationStrategy.mutate`
(blob_mutation.py lines 55-73): `(sender, nonce, value, type)` tuples of all
pending and all queued records. -/
def blob_all_tx_in_pool_details (p : Pool) : List (String × Nat × Nat × Nat) :=
  p.pending.flatMap (fun e =>
    (sortByNonce e.2).map (fun t => (e.1, t.1, t.2.value, t.2.txType))) ++
  p.queued.flatMap (fun e =>
    (sortByNonce e.2).map (fun t => (e.1, t.1, t.2.value, t.2.txType)))

/-- `base_input_tx_in_pool_indices` of `BlobTxMutationStrategy.mutate`
(blob_mutation.py lines 75-78): full-tuple matching. -/
def blob_base_input_tx_in_pool_indices (base : FuzzInput) (pool : Option Pool) : List Nat :=
  match pool with
  | none => []
  | some p =>
    ((base.tx_sequence_to_execute.enum).filter (fun it =>
      (blob_all_tx_in_pool_details p).any (fun t =>
        t.1 == it.2.sender_address && t.2.1 == it.2.nonce &&
        t.2.2.1 == it.2.value && t.2.2.2 == it.2.tx_type))).map (fun it => it.1)

/-- Presence of an intent in a raw pool matched by the full
`(sender, nonce, value, type)` tuple — the specification's wording. -/
def intentInPool (p : Pool) (tx : Tx) : Prop :=
  ∃ e ∈ p.pending ++ p.queued, ∃ t ∈ e.2,
    e.1 = tx.sender_address ∧ t.1 = tx.nonce ∧ t.2.value = tx.value ∧ t.2.txType = tx.tx_type

instance (p : Pool) (tx : Tx) : Decidable (intentInPool p tx) := by
  unfold intentInPool; infer_instance

/-- Presence matched by `(sender, nonce, value)` only, with queued records at
the future sentinel nonce excluded — what the default strategy checks. -/
def intentInPoolNoType (p : Pool) (tx : Tx) : Prop :=
  (∃ e ∈ p.pending, ∃ t ∈ e.2,
    e.1 = tx.sender_address ∧ t.1 = tx.nonce ∧ t.2.value = tx.value) ∨
  (∃ e ∈ p.queued, ∃ t ∈ e.2, t.1 ≠ 10000 ∧
    e.1 = tx.sender_address ∧ t.1 = tx.nonce ∧ t.2.value = tx.value)

instance (p : Pool) (tx : Tx) : Decidable (intentInPoolNoType p tx) := by
  unfold intentInPoolNoType; infer_instance

theorem mem_if_not_empty {α β : Type} {l : List β} {A : List α} {x : α}
    (hne : l.isEmpty = false) (h : x ∈ A) :
    x ∈ (if l.isEmpty then ([] : List α) else A) := by
  rw [hne]
  simpa using h

/-- C6 (amended).  The blob strategy's `resend_indices` are exactly the
positions whose intent is present in the raw pool matched by the full
`(sender, nonce, value, type)` tuple; the default strategy's are the
positions matched by `(sender, nonce, value)` only, with queued
future-sentinel records excluded from the search. -/
theorem resend_indices_spec (base : FuzzInput) (p : Pool) (i : Nat) :
    (i ∈ blob_base_input_tx_in_pool_indices base (some p) ↔
      ∃ tx, base.tx_sequence_to_execute[i]? = some tx ∧ intentInPool p tx) ∧
    (i ∈ default_base_input_tx_in_pool_indices base (some p) ↔
      ∃ tx, base.tx_sequence_to_execute[i]? = some tx ∧ intentInPoolNoType p tx) := by
  constructor
  · unfold blob_base_input_tx_in_pool_indices
    constructor
    · intro hi
      obtain ⟨it, hit, hfst⟩ := List.mem_map.mp hi
      obtain ⟨i', tx⟩ := it
      obtain rfl : i' = i := hfst
      obtain ⟨henum, hpred⟩ := List.mem_filter.mp hit
      refine ⟨tx, List.mk_mem_enum_iff_getElem?.mp henum, ?_⟩
      obtain ⟨t, htmem, hmatch⟩ := List.any_eq_true.mp hpred
      simp only [Bool.and_eq_true, beq_iff_eq] at hmatch
      obtain ⟨⟨⟨h1, h2⟩, h3⟩, h4⟩ := hmatch
      unfold blob_all_tx_in_pool_details at htmem
      rcases List.mem_append.mp htmem with hL | hL <;>
        · obtain ⟨e, he, ht'⟩ := List.mem_flatMap.mp hL
          obtain ⟨nr, hnr, rfl⟩ := List.mem_map.mp ht'
          have hnr' : nr ∈ e.2 := by simpa [sortByNonce] using hnr
          first
            | exact ⟨e, List.mem_append_left _ he, nr, hnr', h1, h2, h3, h4⟩
            | exact ⟨e, List.mem_append_right _ he, nr, hnr', h1, h2, h3, h4⟩
    · intro hx
      obtain ⟨tx, hget, e, he, t, ht, h1, h2, h3, h4⟩ := hx
      apply List.mem_map.mpr
      refine ⟨(i, tx), List.mem_filter.mpr ⟨List.mk_mem_enum_iff_getElem?.mpr hget, ?_⟩, rfl⟩
      apply List.any_eq_true.mpr
      refine ⟨(e.1, t.1, t.2.value, t.2.txType), ?_, by simp [h1, h2, h3, h4]⟩
      unfold blob_all_tx_in_pool_details
      have hsorted : t ∈ sortByNonce e.2 := by simpa [sortByNonce] using ht
      rcases List.mem_append.mp he with hP | hQ
      · exact List.mem_append_left _
          (List.mem_flatMap.mpr ⟨e, hP, List.mem_map.mpr ⟨t, hsorted, rfl⟩⟩)
      · exact List.mem_append_right _
          (List.mem_flatMap.mpr ⟨e, hQ, List.mem_map.mpr ⟨t, hsorted, rfl⟩⟩)
  · unfold default_base_input_tx_in_pool_indices
    constructor
    · intro hi
      obtain ⟨it, hit, hfst⟩ := List.mem_map.mp hi
      obtain ⟨i', tx⟩ := it
      obtain rfl : i' = i := hfst
      obtain ⟨henum, hpred⟩ := List.mem_filter.mp hit
      refine ⟨tx, List.mk_mem_enum_iff_getElem?.mp henum, ?_⟩
      obtain ⟨t, htmem, hmatch⟩ := List.any_eq_true.mp hpred
      simp only [Bool.and_eq_true, beq_iff_eq] at hmatch
      obtain ⟨⟨h1, h2⟩, h3⟩ := hmatch
      unfold default_all_tx_in_pool_details at htmem
      rcases List.mem_append.mp htmem with hL | hL
      · obtain ⟨e, he, ht'⟩ := List.mem_flatMap.mp hL
        split at ht'
        · simp at ht'
        · obtain ⟨nr, hnr, rfl⟩ := List.mem_map.mp ht'
          have hnr' : nr ∈ e.2 := by simpa [sortByNonce] using hnr
          exact Or.inl ⟨e, he, nr, hnr', h1, h2, h3⟩
      · obtain ⟨e, he, ht'⟩ := List.mem_flatMap.mp hL
        split at ht'
        · simp at ht'
        · obtain ⟨nr, hnr, rfl⟩ := List.mem_map.mp ht'
          obtain ⟨hnrs, hnr10000⟩ := List.mem_filter.mp hnr
          have hnr' : nr ∈ e.2 := by simpa [sortByNonce] using hnrs
          refine Or.inr ⟨e, he, nr, hnr', ?_, h1, h2, h3⟩
          simpa using hnr10000
    · intro hx
      obtain ⟨tx, hget, hin⟩ := hx
      apply List.mem_map.mpr
      refine ⟨(i, tx), List.mem_filter.mpr ⟨List.mk_mem_enum_iff_getElem?.mpr hget, ?_⟩, rfl⟩
      apply List.any_eq_true.mpr
      rcases hin with ⟨e, he, t, ht, h1, h2, h3⟩ | ⟨e, he, t, ht, h10000, h1, h2, h3⟩
      · refine ⟨(e.1, t.1, t.2.value), ?_, by simp [h1, h2, h3]⟩
        unfold default_all_tx_in_pool_details
        have hsorted : t ∈ sortByNonce e.2 := by simpa [sortByNonce] using ht
        have hne : e.2.isEmpty = false := by
          cases he2 : e.2 with
          | nil => rw [he2] at ht; simp at ht
          | cons a l => simp [he2]
        exact List.mem_append_left _
          (List.mem_flatMap.mpr ⟨e, he,
            mem_if_not_empty hne (List.mem_map.mpr ⟨t, hsorted, rfl⟩)⟩)
      · refine ⟨(e.1, t.1, t.2.value), ?_, by simp [h1, h2, h3]⟩
        unfold default_all_tx_in_pool_details
        have hsorted : t ∈ sortByNonce e.2 := by simpa [sortByNonce] using ht
        have hne : e.2.isEmpty = false := by
          cases he2 : e.2 with
          | nil => rw [he2] at ht; simp at ht
          | cons a l => simp [he2]
        have hfilter : t ∈ (sortByNonce e.2).filter (fun t => t.1 != 10000) :=
          List.mem_filter.mpr ⟨hsorted, by simpa using h10000⟩
        exact List.mem_append_right _
          (List.mem_flatMap.mpr ⟨e, he,
            mem_if_not_empty hne (List.mem_map.mpr ⟨t, hfilter, rfl⟩)⟩)

/-- A pool holding one pending type-2 record. -/
def poolC6 : Pool :=
  { pending := [("a", [(0, { value := 5, txType := 2 })])], queued := [] }

/-- A base input whose only intent matches that record on sender, nonce and
value but not on type. -/
def baseC6 : FuzzInput := ⟨[⟨0, "a", 0, 7, 5, 0, none, none, none⟩], []⟩

/-- C6 counterexample: the default strategy includes position 0 although the
intent there is not present in the pool under full-tuple matching (its type
is 0, the pool record's is 2). -/
theorem resend_indices_cex :
    default_base_input_tx_in_pool_indices baseC6 (some poolC6) = [0] ∧
    ¬ intentInPool poolC6 (baseC6.tx_sequence_to_execute.getD 0 dummyTx) := by decide

/-- Witness for C6 is not needed for the iff form, but the universally
quantified statement has no hypotheses; this instance records a concrete
full-tuple inclusion decided through the theorem. -/
theorem resend_indices_spec_witness :
    (0 : Nat) ∈ blob_base_input_tx_in_pool_indices
      ⟨[⟨0, "a", 0, 7, 5, 2, none, none, none⟩], []⟩
      (some { pending := [("a", [(0, { value := 5, txType := 2 })])], queued := [] }) :=
  ((resend_indices_spec ⟨[⟨0, "a", 0, 7, 5, 2, none, none, none⟩], []⟩
      { pending := [("a", [(0, { value := 5, txType := 2 })])], queued := [] } 0).1).mpr
    ⟨⟨0, "a", 0, 7, 5, 2, none, none, none⟩, rfl,
      ("a", [(0, { value := 5, txType := 2 })]), by simp,
      (0, { value := 5, txType := 2 }), by simp, rfl, rfl, rfl, rfl⟩


/-! ## Blob mutation candidates (blob_mutation.py lines 41-188) -/

/-- Environment of one `BlobTxMutationStrategy.mutate` call: the account
table and fuzzer-nonce lookups, the fee snapshot (read with `.get(..., 0)`
defaults), the two `generate_blob_versioned_hashes` results and the
`random.randint` draws, all inputs of the embedding. -/
structure BlobMutEnv where
  account_at : Nat → Option String
  fuzzer_nonce : String → Option Nat
  maxFeePerGas : Nat := 0
  maxPriorityFeePerGas : Nat := 0
  maxFeePerBlobGas : Nat := 0
  num_blobs : Nat := 1
  hashes1 : List Nat := []
  hashes2 : List Nat := []
  randBlobGas : Nat := 0
  randPrice1 : Nat := 0
  randPrice2 : Nat := 0
  randPrice3 : Nat := 0
  randPrice4 : Nat := 0
  randPrio1 : Nat := 0
  randPrio2 : Nat := 0
  randPrio3 : Nat := 0
  randPrio4 : Nat := 0

/-- `BlobTxMutationStrategy.mutate` (blob_mutation.py lines 41-188): after
computing the resend indices, build the new-account blob transaction, the
low- and high-blob-gas variants (guarded by a truthy sender string) and the
invalid-hash-count variant (guarded additionally by the second hash
generation succeeding). -/
def blobMutate (env : BlobMutEnv) (min_blob_gas_price max_blob_gas_price : Nat)
    (base : FuzzInput) (pool : Option Pool) (current_fuzzer_account_index : Nat) :
    List FuzzInput :=
  let resend := blob_base_input_tx_in_pool_indices base pool
  let idx := current_fuzzer_account_index + 1
  match env.account_at idx with
  | none => []
  | some sender =>
    if env.hashes1 = [] then []
    else
      let blob_gas_price := max min_blob_gas_price env.randBlobGas
      let nonce := (env.fuzzer_nonce sender).getD 0
      let new_blob_tx : Tx :=
        { account_manager_index := idx, sender_address := sender, nonce := nonce,
          price := max env.maxFeePerGas env.randPrice1, value := 0, tx_type := 3,
          max_priority_fee_per_gas := some (max env.maxPriorityFeePerGas env.randPrio1),
          max_fee_per_blob_gas := some blob_gas_price,
          blob_versioned_hashes := some env.hashes1 }
      let low_blob_tx : Tx :=
        { account_manager_index := idx, sender_address := sender, nonce := nonce,
          price := max env.maxFeePerGas env.randPrice2, value := 0, tx_type := 3,
          max_priority_fee_per_gas := some (max env.maxPriorityFeePerGas env.randPrio2),
          max_fee_per_blob_gas := some (max 1 min_blob_gas_price),
          blob_versioned_hashes := some env.hashes1 }
      let high_blob_tx : Tx :=
        { account_manager_index := idx, sender_address := sender, nonce := nonce,
          price := max env.maxFeePerGas env.randPrice3, value := 0, tx_type := 3,
          max_priority_fee_per_gas := some (max env.maxPriorityFeePerGas env.randPrio3),
          max_fee_per_blob_gas := some max_blob_gas_price,
          blob_versioned_hashes := some env.hashes1 }
      let invalid_blob_tx : Tx :=
        { account_manager_index := idx, sender_address := sender, nonce := nonce,
          price := max env.maxFeePerGas env.randPrice4, value := 0, tx_type := 3,
          max_priority_fee_per_gas := some (max env.maxPriorityFeePerGas env.randPrio4),
          max_fee_per_blob_gas := some blob_gas_price,
          blob_versioned_hashes := some (env.hashes2 ++ [env.hashes2.headD 0]) }
      [(⟨base.tx_sequence_to_execute ++ [new_blob_tx], resend⟩ : FuzzInput)] ++
      (if sender ≠ "" then
        [(⟨base.tx_sequence_to_execute ++ [low_blob_tx], resend⟩ : FuzzInput),
         (⟨base.tx_sequence_to_execute ++ [high_blob_tx], resend⟩ : FuzzInput)]
       else []) ++
      (if sender ≠ "" ∧ env.hashes2 ≠ [] then
        [(⟨base.tx_sequence_to_execute ++ [invalid_blob_tx], resend⟩ : FuzzInput)]
       else [])

/-- C8 (amended).  When a fresh account is available (a truthy address) and
both hash generations succeed, one `mutate` call returns exactly four
candidates — the valid blob transaction, a low-blob-gas variant, a
high-blob-gas variant and an invalid-hash-count variant — each appending one
type-3 intent to the base sequence and carrying the blob resend indices. -/
theorem blobMutate_four_candidates (env : BlobMutEnv) (min_blob max_blob : Nat)
    (base : FuzzInput) (pool : Option Pool) (idx : Nat) (sender : String)
    (hacct : env.account_at (idx + 1) = some sender)
    (hsender : sender ≠ "")
    (h1 : env.hashes1 ≠ []) (h2 : env.hashes2 ≠ []) :
    ∃ t₁ t₂ t₃ t₄ : Tx,
      blobMutate env min_blob max_blob base pool idx
        = [⟨base.tx_sequence_to_execute ++ [t₁], blob_base_input_tx_in_pool_indices base pool⟩,
           ⟨base.tx_sequence_to_execute ++ [t₂], blob_base_input_tx_in_pool_indices base pool⟩,
           ⟨base.tx_sequence_to_execute ++ [t₃], blob_base_input_tx_in_pool_indices base pool⟩,
           ⟨base.tx_sequence_to_execute ++ [t₄], blob_base_input_tx_in_pool_indices base pool⟩] ∧
      (blobMutate env min_blob max_blob base pool idx).length = 4 ∧
      t₁.tx_type = 3 ∧ t₂.tx_type = 3 ∧ t₃.tx_type = 3 ∧ t₄.tx_type = 3 ∧
      t₁.blob_versioned_hashes = some env.hashes1 ∧
      t₂.max_fee_per_blob_gas = some (max 1 min_blob) ∧
      t₃.max_fee_per_blob_gas = some max_blob ∧
      t₄.blob_versioned_hashes = some (env.hashes2 ++ [env.hashes2.headD 0]) ∧
      ((t₄.blob_versioned_hashes.getD []).length = env.hashes2.length + 1) := by
  simp only [blobMutate]
  rw [hacct]
  dsimp only
  rw [if_neg h1, if_pos hsender, if_pos ⟨hsender, h2⟩]
  exact ⟨_, _, _, _, rfl, rfl, rfl, rfl, rfl, rfl, rfl, rfl, rfl, rfl, by simp⟩

/-- A concrete blob-mutation environment with one fresh account and
successful hash generation. -/
def envC8 : BlobMutEnv :=
  { account_at := fun _ => some "0xA", fuzzer_nonce := fun _ => some 0,
    maxFeePerGas := 10, maxPriorityFeePerGas := 2, maxFeePerBlobGas := 6,
    num_blobs := 1, hashes1 := [7], hashes2 := [7],
    randBlobGas := 3, randPrice1 := 1, randPrice2 := 1, randPrice3 := 1, randPrice4 := 1,
    randPrio1 := 1, randPrio2 := 1, randPrio3 := 1, randPrio4 := 1 }

/-- C8 counterexample: under the claim's hypotheses the strategy returns
four candidates, not three — the high-blob-gas variant is also emitted. -/
theorem blobMutate_four_candidates_cex :
    (blobMutate envC8 1 1000 ⟨[], []⟩ none 0).length = 4 ∧ (4 : Nat) ≠ 3 :=
  ⟨rfl, by decide⟩

/-- Witness for C8 at the concrete environment. -/
theorem blobMutate_four_candidates_witness :
    (blobMutate envC8 1 1000 ⟨[], []⟩ none 0).length = 4 ∧
    ((1 : Nat) ≤ 4) := by
  obtain ⟨t₁, t₂, t₃, t₄, -, hlen, -⟩ :=
    blobMutate_four_candidates envC8 1 1000 ⟨[], []⟩ none 0 "0xA" rfl
      (by decide) (by decide) (by decide)
  exact ⟨hlen, by decide⟩


end MempoolFuzz
